import Mathlib

/-!
# Scan-to-scan split pose tracker

A shallow embedding of `LidarTracker::trackCloud`
(`src/estimator/src/lidarTracker/lidar_tracker_split.cpp`).

Conventions of the embedding.

* A C++ `double`/`float` is an exact rational number; rounding is not modelled.
* The call is modelled by explicit state passing.  The state carries the array
  `para_pose` and a ghost trace recording every matcher call and every solver
  invocation, in program order.
* The feature matcher (`f_extract_`), the least-squares solver (`ceres::Solve`)
  and the `Pose(q, t)` constructor are not part of the translated file; they are
  parameters of the model (`External`).  The globals `DISTORTION` and
  `SCAN_PERIOD` are parameters as well (`Config`).
* A step whose behaviour the language leaves undefined (dereferencing the end
  iterator of a map, indexing a vector out of range, converting an out-of-range
  value to `int`) yields `Outcome.undefined`.
-/

namespace LidarTracker

/-! ## Data model -/

/-- Eigen::Vector3d. -/
structure Vector3d where
  x : ℚ
  y : ℚ
  z : ℚ
deriving DecidableEq

/-- Eigen::Vector4d. -/
structure Vector4d where
  a : ℚ
  b : ℚ
  c : ℚ
  d : ℚ
deriving DecidableEq

/-- Eigen::Quaterniond; the constructor takes its arguments in the order (w, x, y, z). -/
structure Quaterniond where
  w : ℚ
  x : ℚ
  y : ℚ
  z : ℚ
deriving DecidableEq

/-- The members `q_` and `t_` of the class Pose that `trackCloud` reads and writes. -/
structure Pose where
  q_ : Quaterniond
  t_ : Vector3d
deriving DecidableEq

/-- A point with intensity (pcl::PointXYZI). -/
structure PointI where
  x : ℚ
  y : ℚ
  z : ℚ
  intensity : ℚ
deriving DecidableEq

/-- The member `points` of a PointICloud. -/
abbrev PointICloud := List PointI

/-- The map from a label to a cloud (`cloudFeature`). -/
abbrev cloudFeature := List (String × PointICloud)

/-- Lookup `m.find(key)`: `none` stands for the end iterator. -/
def cloudFeature.find (m : cloudFeature) (key : String) : Option PointICloud :=
  List.lookup key m

/-- A correspondence as read by `trackCloud`: members `idx_`, `point_`, `coeffs_`. -/
structure PointPlaneFeature where
  idx_ : Nat
  point_ : Vector3d
  coeffs_ : Vector4d
deriving DecidableEq

/-- The array `double para_pose[SIZE_POSE]`, entries 0 to 6. -/
structure ParaPose where
  p0 : ℚ
  p1 : ℚ
  p2 : ℚ
  p3 : ℚ
  p4 : ℚ
  p5 : ℚ
  p6 : ℚ
deriving DecidableEq

/-- Modelled from the spec: the constant `SIZE_POSE`, which is not in the translated file.
The pose parameter vector has 7 components (3 of translation, 4 of the quaternion), the
seven values of the initialiser of `para_pose`. -/
def SIZE_POSE : Nat := 7

/-- A kd-tree over a cloud: `setInputCloud` stores the cloud it indexes. -/
structure KdTreeFLANN where
  input : PointICloud
deriving DecidableEq

/-- The call `kdtree->setInputCloud(cloud)` on a fresh tree. -/
def KdTreeFLANN.setInputCloud (cloud : PointICloud) : KdTreeFLANN := ⟨cloud⟩

/-- The 6 x 6 matrix `V_update_` of a PoseLocalParameterization. -/
abbrev Matrix6 := Fin 6 → Fin 6 → ℚ

/-- The assignment `M(i, j) = v`. -/
def Matrix6.set (M : Matrix6) (i j : Fin 6) (v : ℚ) : Matrix6 :=
  fun r c => if r = i ∧ c = j then v else M r c

/-- Modelled from the spec: `PoseLocalParameterization::setParameter`, which is not in the
translated file.  The mask is "a diagonal selection" in which held components are "zeroed";
after `setParameter` nothing is held yet, so the selection is the identity matrix. -/
def setParameter : Matrix6 :=
  fun r c => if r = c then 1 else 0

/-- A PoseLocalParameterization object, identified by its member `V_update_`. -/
structure PoseLocalParameterization where
  V_update_ : Matrix6

/-- The loss `new ceres::HuberLoss(a)`. -/
structure HuberLoss where
  a : ℚ
deriving DecidableEq

/-- Value of `options.linear_solver_type`. -/
inductive LinearSolverType where
  | DENSE_QR
  | DENSE_SCHUR
deriving DecidableEq

/-- The fields of `ceres::Solver::Options` that `trackCloud` sets. -/
structure SolverOptions where
  linear_solver_type : LinearSolverType
  max_num_iterations : Nat
  minimizer_progress_to_stdout : Bool
  check_gradients : Bool
  gradient_check_relative_precision : ℚ
deriving DecidableEq

/-- The address of a parameter array handed to the solver. -/
structure ParamRef where
  addr : Nat
deriving DecidableEq

/-- The address of the one array `para_pose` of a call. -/
def para_pose_ref : ParamRef := ⟨0⟩

/-- The arguments of `new LidarScanPlaneNormFactor(p_data, coeff, s)`. -/
structure LidarScanPlaneNormFactor where
  point_ : Vector3d
  coeff_ : Vector4d
  s_ : ℚ
deriving DecidableEq

/-- The arguments of one `problem.AddResidualBlock(f, loss_function, para)`. -/
structure ResidualBlock where
  cost : LidarScanPlaneNormFactor
  loss : HuberLoss
  parameter : ParamRef
deriving DecidableEq

/-- The arguments of one `problem.AddParameterBlock(values, size, local_parameterization)`. -/
structure ParameterBlock where
  values : ParamRef
  size : Nat
  local_parameterization : PoseLocalParameterization

/-- A `ceres::Problem`: its parameter blocks and its residual blocks, in insertion order. -/
structure Problem where
  parameter_blocks : List ParameterBlock
  residual_blocks : List ResidualBlock

/-- The globals `DISTORTION` and `SCAN_PERIOD`. -/
structure Config where
  DISTORTION : Bool
  SCAN_PERIOD : ℚ

/-- What `trackCloud` calls and does not define: the two matchers of `f_extract_` (each
returns the vector it fills), `ceres::Solve` (returns the new content of `para_pose`) and the
constructor `Pose(q, t)`. -/
structure External where
  matchSurfFromScan : KdTreeFLANN → PointICloud → PointICloud → Pose → List PointPlaneFeature
  matchCornerFromScan : KdTreeFLANN → PointICloud → PointICloud → Pose → List PointPlaneFeature
  Solve : SolverOptions → Problem → ParaPose → ParaPose
  mkPose : Quaterniond → Vector3d → Pose

/-- How a call ends: with a value, with a failure reported to the caller, or in undefined
behaviour.  Exceptions raised inside the callees (allocation, matcher, solver) are not
modelled: the callees are total functions here. -/
inductive Outcome (α : Type) where
  | returned (a : α)
  | failure (msg : String)
  | undefined

/-- Sequencing of two steps. -/
def Outcome.bind {α β : Type} (o : Outcome α) (f : α → Outcome β) : Outcome β :=
  match o with
  | .returned a => f a
  | .failure msg => .failure msg
  | .undefined => .undefined

/-- Post-processing of a returned value. -/
def Outcome.map {α β : Type} (f : α → β) (o : Outcome α) : Outcome β :=
  o.bind (fun a => .returned (f a))

/-- The two correspondence families: the first loop (surf) and the second loop (corner). -/
inductive Family where
  | surf
  | corner
deriving DecidableEq

/-- Ghost events: a matcher call with the pose handed to it and the vector it returned, and a
solver invocation with its options, its problem and the content of `para_pose` on entry. -/
inductive Event where
  | matcher (fam : Family) (pose_local : Pose) (found : List PointPlaneFeature)
  | solve (options : SolverOptions) (problem : Problem) (para_in : ParaPose)

/-- The mutable state of a call: `para_pose` and the ghost trace. -/
structure TrackState where
  para_pose : ParaPose
  trace : List Event

/-- The locals bound by steps 1 and 2 of `trackCloud`. -/
structure Locals where
  corner_points_last : PointICloud
  surf_points_last : PointICloud
  kdtree_corner_last : KdTreeFLANN
  kdtree_surf_last : KdTreeFLANN
  corner_points_sharp : PointICloud
  surf_points_flat : PointICloud

/-! ## Operations -/

/-- Step 3: the initialiser of `para_pose`. -/
def packPose (pose_ini : Pose) : ParaPose :=
  ⟨pose_ini.t_.x, pose_ini.t_.y, pose_ini.t_.z,
   pose_ini.q_.x, pose_ini.q_.y, pose_ini.q_.z, pose_ini.q_.w⟩

/-- The value `Eigen::Quaterniond(para_pose[6], para_pose[3], para_pose[4], para_pose[5])`. -/
def quatOf (p : ParaPose) : Quaterniond := ⟨p.p6, p.p3, p.p4, p.p5⟩

/-- The value `Eigen::Vector3d(para_pose[0], para_pose[1], para_pose[2])`. -/
def transOf (p : ParaPose) : Vector3d := ⟨p.p0, p.p1, p.p2⟩

/-- The local `pose_local`: a default Pose whose members `t_` and `q_` are then assigned. -/
def poseLocal (p : ParaPose) : Pose := { q_ := quatOf p, t_ := transOf p }

/-- The conversion `int(v)` of a floating value: truncation toward zero, undefined when the
truncated value does not fit a 32-bit int. -/
def toInt (v : ℚ) : Option ℤ :=
  let t := v.num.tdiv v.den
  if -(2 : ℤ) ^ 31 ≤ t ∧ t < (2 : ℤ) ^ 31 then some t else none

/-- The time factor `s` of one correspondence: the `if (DISTORTION) ... else s = 1.0`
statement, with `points[idx]` undefined out of range. -/
def timeScale (cfg : Config) (points : PointICloud) (idx : Nat) : Option ℚ :=
  if cfg.DISTORTION then
    match points[idx]? with
    | none => none
    | some pt =>
      match toInt pt.intensity with
      | none => none
      | some k => some ((pt.intensity - (k : ℚ)) / cfg.SCAN_PERIOD)
  else some 1

/-- The loss `new ceres::HuberLoss(0.1)`. -/
def loss_function : HuberLoss := ⟨1 / 10⟩

/-- The body of the `for (auto &feature : ...)` loop: one residual block. -/
def residualOf (cfg : Config) (points : PointICloud) (feature : PointPlaneFeature) :
    Option ResidualBlock :=
  match timeScale cfg points feature.idx_ with
  | none => none
  | some s => some ⟨⟨feature.point_, feature.coeffs_, s⟩, loss_function, para_pose_ref⟩

/-- The `for (auto &feature : ...)` loop: the residual blocks added, in order. -/
def residualBlocks (cfg : Config) (points : PointICloud) :
    List PointPlaneFeature → Option (List ResidualBlock)
  | [] => some []
  | feature :: rest =>
    match residualOf cfg points feature with
    | none => none
    | some blk =>
      match residualBlocks cfg points rest with
      | none => none
      | some blks => some (blk :: blks)

/-- The solver options set at the top of each outer iteration. -/
def options : SolverOptions :=
  { linear_solver_type := .DENSE_SCHUR
    max_num_iterations := 6
    minimizer_progress_to_stdout := false
    check_gradients := false
    gradient_check_relative_precision := 1 / 10000 }

/-- The three assignments `V_update_(i, i) = 0` of a loop, applied to the matrix `V`:
entries (0,0), (1,1), (5,5) in the first loop, (2,2), (3,3), (4,4) in the second. -/
def zeroDiagonal : Family → Matrix6 → Matrix6
  | .surf, V => ((V.set 0 0 0).set 1 1 0).set 5 5 0
  | .corner, V => ((V.set 2 2 0).set 3 3 0).set 4 4 0

/-- The matrix `V_update_` after `setParameter()` and the three assignments of the loop. -/
def V_update (fam : Family) : Matrix6 := zeroDiagonal fam setParameter

/-- The diagonal positions a loop assigns: 0, 1, 5 (x, y, yaw) in the first loop and
2, 3, 4 (z, roll, pitch) in the second. -/
def assignedSet : Family → Finset (Fin 6)
  | .surf => {0, 1, 5}
  | .corner => {2, 3, 4}

/-- The object `local_parameterization` of an outer iteration. -/
def local_parameterization (fam : Family) : PoseLocalParameterization := ⟨V_update fam⟩

/-- The current-frame cloud of a family. -/
def curPoints (loc : Locals) : Family → PointICloud
  | .surf => loc.surf_points_flat
  | .corner => loc.corner_points_sharp

/-- The matcher call of a family: `matchSurfFromScan` in the first loop,
`matchCornerFromScan` in the second. -/
def callMatcher (ext : External) (loc : Locals) (fam : Family) (pose_local : Pose) :
    List PointPlaneFeature :=
  match fam with
  | .surf =>
    ext.matchSurfFromScan loc.kdtree_surf_last loc.surf_points_last loc.surf_points_flat pose_local
  | .corner =>
    ext.matchCornerFromScan loc.kdtree_corner_last loc.corner_points_last
      loc.corner_points_sharp pose_local

/-- The problem at the call of `ceres::Solve`. -/
def problemOf (fam : Family) (blocks : List ResidualBlock) : Problem :=
  { parameter_blocks := [⟨para_pose_ref, SIZE_POSE, local_parameterization fam⟩]
    residual_blocks := blocks }

/-- How the body of an outer iteration ends. -/
inductive IterResult where
  | next (st : TrackState)
  | brk (st : TrackState)
  | undef

/-- The body of one outer iteration of either loop. -/
def passIter (cfg : Config) (ext : External) (loc : Locals) (fam : Family) (st : TrackState) :
    IterResult :=
  let pose_local := poseLocal st.para_pose
  let scan_features := callMatcher ext loc fam pose_local
  let tr := st.trace ++ [Event.matcher fam pose_local scan_features]
  if scan_features.length < 10 then
    .brk { st with trace := tr }
  else
    match residualBlocks cfg (curPoints loc fam) scan_features with
    | none => .undef
    | some blocks =>
      let problem := problemOf fam blocks
      .next { para_pose := ext.Solve options problem st.para_pose
              trace := tr ++ [Event.solve options problem st.para_pose] }

/-- The loop `for (iter_cnt = 0; iter_cnt < 2; iter_cnt++)`, by the number of iterations
that remain. -/
def passLoop (cfg : Config) (ext : External) (loc : Locals) (fam : Family) :
    Nat → TrackState → Outcome TrackState
  | 0, st => .returned st
  | n + 1, st =>
    match passIter cfg ext loc fam st with
    | .brk st1 => .returned st1
    | .next st1 => passLoop cfg ext loc fam n st1
    | .undef => .undefined

/-- The first loop (surface family). -/
def surfPass (cfg : Config) (ext : External) (loc : Locals) (st : TrackState) :
    Outcome TrackState :=
  passLoop cfg ext loc .surf 2 st

/-- The second loop (edge family). -/
def cornerPass (cfg : Config) (ext : External) (loc : Locals) (st : TrackState) :
    Outcome TrackState :=
  passLoop cfg ext loc .corner 2 st

/-- Steps 1 and 2: the four lookups, each dereferenced without a check, and the two trees. -/
def bindLocals (prev_cloud_feature cur_cloud_feature : cloudFeature) : Option Locals :=
  match prev_cloud_feature.find "corner_points_less_sharp",
        prev_cloud_feature.find "surf_points_less_flat",
        cur_cloud_feature.find "corner_points_sharp",
        cur_cloud_feature.find "surf_points_flat" with
  | some cl, some sl, some cs, some sf =>
    some { corner_points_last := cl
           surf_points_last := sl
           kdtree_corner_last := KdTreeFLANN.setInputCloud cl
           kdtree_surf_last := KdTreeFLANN.setInputCloud sl
           corner_points_sharp := cs
           surf_points_flat := sf }
  | _, _, _, _ => none

/-- The body of `trackCloud` up to the end of the second loop, with the ghost trace. -/
def trackCloudRun (cfg : Config) (ext : External)
    (prev_cloud_feature cur_cloud_feature : cloudFeature) (pose_ini : Pose) :
    Outcome TrackState :=
  match bindLocals prev_cloud_feature cur_cloud_feature with
  | none => .undefined
  | some loc =>
    (surfPass cfg ext loc { para_pose := packPose pose_ini, trace := [] }).bind
      (fun st => cornerPass cfg ext loc st)

/-- The function `LidarTracker::trackCloud`. -/
def trackCloud (cfg : Config) (ext : External)
    (prev_cloud_feature cur_cloud_feature : cloudFeature) (pose_ini : Pose) : Outcome Pose :=
  (trackCloudRun cfg ext prev_cloud_feature cur_cloud_feature pose_ini).map
    (fun st => ext.mkPose (quatOf st.para_pose) (transOf st.para_pose))

/-! ## The masked parameter update -/

/-- A tangent update: 3 translation components followed by 3 rotation components. -/
abbrev Vector6 := Fin 6 → ℚ

/-- The product of a 6 x 6 matrix and a 6-vector. -/
def Matrix6.mulVec (M : Matrix6) (v : Vector6) : Vector6 :=
  fun r => M r 0 * v 0 + M r 1 * v 1 + M r 2 * v 2 + M r 3 * v 3 + M r 4 * v 4 + M r 5 * v 5

/-- The Hamilton product of two quaternions. -/
def Quaterniond.mul (a b : Quaterniond) : Quaterniond :=
  ⟨a.w * b.w - a.x * b.x - a.y * b.y - a.z * b.z,
   a.w * b.x + a.x * b.w + a.y * b.z - a.z * b.y,
   a.w * b.y - a.x * b.z + a.y * b.w + a.z * b.x,
   a.w * b.z + a.x * b.y - a.y * b.x + a.z * b.w⟩

/-- The squared norm of a quaternion. -/
def Quaterniond.squaredNorm (q : Quaterniond) : ℚ :=
  q.w * q.w + q.x * q.x + q.y * q.y + q.z * q.z

/-- Division of a quaternion by the square root of its squared norm, the root taken in the
rationals: exact whenever the squared norm is the square of a rational. -/
def Quaterniond.normalized (q : Quaterniond) : Quaterniond :=
  let n := Rat.sqrt q.squaredNorm
  ⟨q.w / n, q.x / n, q.y / n, q.z / n⟩

/-- Modelled from the spec: `PoseLocalParameterization::Plus`, which is not in the translated
file.  "Update translation additively, update rotation via a manifold-respecting
composition, and optionally zero out specific update directions"; the rotation is
"renormalized to unit length after any update".  The increment is first multiplied by the
selection matrix; the rotation part becomes the small-angle quaternion (1, d/2), composed on
the right and renormalised by `nrm`. -/
def Plus (V : Matrix6) (nrm : Quaterniond → Quaterniond) (x : ParaPose) (delta : Vector6) :
    ParaPose :=
  let dx := V.mulVec delta
  let q := nrm ((quatOf x).mul ⟨1, dx 3 / 2, dx 4 / 2, dx 5 / 2⟩)
  ⟨x.p0 + dx 0, x.p1 + dx 1, x.p2 + dx 2, q.x, q.y, q.z, q.w⟩

/-- A solver whose every result is obtained through the parameter update of the block's local
parameterization: the result is the start value moved by finitely many `Plus` steps. -/
def MaskedSolver (nrm : Quaterniond → Quaterniond)
    (Solve : SolverOptions → Problem → ParaPose → ParaPose) : Prop :=
  ∀ (o : SolverOptions) (problem : Problem) (pb : ParameterBlock) (x : ParaPose),
    problem.parameter_blocks = [pb] →
    ∃ deltas : List Vector6,
      Solve o problem x = deltas.foldl (Plus pb.local_parameterization.V_update_ nrm) x

/-- The yaw of a unit quaternion (rotation about z, Z-Y-X Euler angles) is
`atan2 (yawSin q) (yawCos q)`. -/
def yawSin (q : Quaterniond) : ℚ := 2 * (q.w * q.z + q.x * q.y)

/-- The second argument of the `atan2` that gives the yaw of a unit quaternion. -/
def yawCos (q : Quaterniond) : ℚ := 1 - 2 * (q.y * q.y + q.z * q.z)

/-- Two unit quaternions have the same yaw: the two `atan2` argument pairs point in the
same direction. -/
def sameYaw (a b : Quaterniond) : Prop :=
  yawSin a * yawCos b = yawCos a * yawSin b ∧ 0 ≤ yawSin a * yawSin b + yawCos a * yawCos b

/-! ## Reading the trace -/

/-- Whether an event is a matcher call of the given family. -/
def Event.isMatcherOf (fam : Family) : Event → Bool
  | .matcher f _ _ => decide (f = fam)
  | .solve _ _ _ => false

/-- Whether an event is a solver invocation. -/
def Event.isSolve : Event → Bool
  | .matcher _ _ _ => false
  | .solve _ _ _ => true

/-- The number of matcher calls of a family in a trace. -/
def countMatcher (fam : Family) (tr : List Event) : Nat := tr.countP (Event.isMatcherOf fam)

/-- The number of solver invocations in a trace. -/
def countSolve (tr : List Event) : Nat := tr.countP Event.isSolve

/-- The events an outer iteration of a family can append: its own matcher call, or a solver
invocation with the options of the loop, on a problem of that family whose residual blocks
were built from the current-frame cloud of the family. -/
def IterEvent (cfg : Config) (loc : Locals) (fam : Family) : Event → Prop
  | .matcher f _ _ => f = fam
  | .solve o problem _ =>
    o = options ∧ ∃ fs blocks, 10 ≤ fs.length ∧
      residualBlocks cfg (curPoints loc fam) fs = some blocks ∧ problem = problemOf fam blocks

/-- The diagonal positions a family holds fixed: the entry is zero. -/
def fixedSet (fam : Family) : Finset (Fin 6) :=
  Finset.univ.filter (fun i => V_update fam i i = 0)

/-- The diagonal positions a family leaves free: the entry is one. -/
def freeSet (fam : Family) : Finset (Fin 6) :=
  Finset.univ.filter (fun i => V_update fam i i = 1)

/-- The matcher results stay inside the current-frame cloud of their family and the
intensities read there fit the conversion to `int`. -/
def InRange (ext : External) (loc : Locals) : Prop :=
  ∀ (fam : Family) (pose_local : Pose) (f : PointPlaneFeature),
    f ∈ callMatcher ext loc fam pose_local →
    ∃ pt k, (curPoints loc fam)[f.idx_]? = some pt ∧ toInt pt.intensity = some k

/-! ## Concrete inputs -/

/-- Ten correspondences, with indices 0 to 9. -/
def tenFeatures : List PointPlaneFeature :=
  (List.range 10).map (fun i : Nat => ⟨i, ⟨(i : ℚ), 0, 0⟩, ⟨0, 0, 1, 0⟩⟩)

/-- Ten points; point `i` has intensity `i + 1/20`. -/
def tenPoints : PointICloud :=
  (List.range 10).map (fun i : Nat => ⟨(i : ℚ), 0, 0, (i : ℚ) + 1 / 20⟩)

/-- A previous-frame map with both required labels. -/
def prevDemo : cloudFeature :=
  [("corner_points_less_sharp", tenPoints), ("surf_points_less_flat", tenPoints)]

/-- A current-frame map with both required labels. -/
def curDemo : cloudFeature :=
  [("corner_points_sharp", tenPoints), ("surf_points_flat", tenPoints)]

/-- The locals bound from `prevDemo` and `curDemo`. -/
def locDemo : Locals :=
  { corner_points_last := tenPoints
    surf_points_last := tenPoints
    kdtree_corner_last := ⟨tenPoints⟩
    kdtree_surf_last := ⟨tenPoints⟩
    corner_points_sharp := tenPoints
    surf_points_flat := tenPoints }

/-- The tangent increment used by the concrete solver. -/
def deltaDemo : Vector6 := fun i =>
  if i = 3 ∨ i = 4 then 4 else if i = 5 then 0 else 1

/-- A concrete environment: the surface matcher finds ten correspondences while z = 0, the
edge matcher while x = 0; the solver takes one `Plus` step by `deltaDemo`; the constructor
stores the normalised quaternion and the translation. -/
def extDemo : External :=
  { matchSurfFromScan := fun _ _ _ pose => if pose.t_.z = 0 then tenFeatures else []
    matchCornerFromScan := fun _ _ _ pose => if pose.t_.x = 0 then tenFeatures else []
    Solve := fun _ problem x =>
      match problem.parameter_blocks with
      | [pb] => Plus pb.local_parameterization.V_update_ Quaterniond.normalized x deltaDemo
      | _ => x
    mkPose := fun q t => ⟨q.normalized, t⟩ }

/-- A concrete environment whose matchers never find a correspondence. -/
def extNone : External :=
  { extDemo with
    matchSurfFromScan := fun _ _ _ _ => []
    matchCornerFromScan := fun _ _ _ _ => [] }

/-- Zero translation, identity rotation. -/
def poseIdentity : Pose := ⟨⟨1, 0, 0, 0⟩, ⟨0, 0, 0⟩⟩

/-- Distortion compensation on, scan period 1/10. -/
def cfgOn : Config := ⟨true, 1 / 10⟩

/-- Distortion compensation off. -/
def cfgOff : Config := ⟨false, 1 / 10⟩

/-- The content of `para_pose` after the one surface solve of the concrete run. -/
def paraAfterSurf : ParaPose := ⟨0, 0, 1, 2 / 3, 2 / 3, 0, 1 / 3⟩

/-- The content of `para_pose` at the end of the concrete run. -/
def paraFinal : ParaPose := ⟨1, 1, 1, 2 / 3, 2 / 3, 0, 1 / 3⟩

/-- The residual blocks of the ten correspondences without distortion compensation. -/
def blocksOff : List ResidualBlock :=
  tenFeatures.map (fun f => ⟨⟨f.point_, f.coeffs_, 1⟩, loss_function, para_pose_ref⟩)

/-- The state at the start of the concrete run. -/
def stStart : TrackState := ⟨packPose poseIdentity, []⟩

/-- The state the surface loop of the concrete run returns: one solve, then a break. -/
def stAfterSurf : TrackState :=
  ⟨paraAfterSurf,
   [Event.matcher .surf poseIdentity tenFeatures,
    Event.solve options (problemOf .surf blocksOff) (packPose poseIdentity),
    Event.matcher .surf (poseLocal paraAfterSurf) []]⟩

/-- The state the edge loop of the concrete run returns: one solve, then a break. -/
def stFinal : TrackState :=
  ⟨paraFinal,
   stAfterSurf.trace ++
   [Event.matcher .corner (poseLocal paraAfterSurf) tenFeatures,
    Event.solve options (problemOf .corner blocksOff) paraAfterSurf,
    Event.matcher .corner (poseLocal paraFinal) []]⟩

/-! ## Lemmas on one outer iteration -/

/-- An iteration with fewer than ten correspondences breaks, leaving `para_pose` as it is. -/
theorem passIter_brk (cfg : Config) (ext : External) (loc : Locals) (fam : Family)
    (st : TrackState)
    (h : (callMatcher ext loc fam (poseLocal st.para_pose)).length < 10) :
    passIter cfg ext loc fam st =
      .brk ⟨st.para_pose, st.trace ++ [Event.matcher fam (poseLocal st.para_pose)
        (callMatcher ext loc fam (poseLocal st.para_pose))]⟩ := by
  simp only [passIter, h, if_true]

/-- An iteration with at least ten correspondences and defined time factors solves. -/
theorem passIter_next (cfg : Config) (ext : External) (loc : Locals) (fam : Family)
    (st : TrackState) (blocks : List ResidualBlock)
    (h : 10 ≤ (callMatcher ext loc fam (poseLocal st.para_pose)).length)
    (hb : residualBlocks cfg (curPoints loc fam)
      (callMatcher ext loc fam (poseLocal st.para_pose)) = some blocks) :
    passIter cfg ext loc fam st =
      .next ⟨ext.Solve options (problemOf fam blocks) st.para_pose,
        st.trace ++ [Event.matcher fam (poseLocal st.para_pose)
          (callMatcher ext loc fam (poseLocal st.para_pose)),
          Event.solve options (problemOf fam blocks) st.para_pose]⟩ := by
  have h' : ¬ (callMatcher ext loc fam (poseLocal st.para_pose)).length < 10 := by omega
  simp only [passIter, h', if_false, hb, List.append_assoc, List.singleton_append]

/-- An iteration that reads an undefined time factor has no defined result. -/
theorem passIter_undef (cfg : Config) (ext : External) (loc : Locals) (fam : Family)
    (st : TrackState)
    (h : 10 ≤ (callMatcher ext loc fam (poseLocal st.para_pose)).length)
    (hb : residualBlocks cfg (curPoints loc fam)
      (callMatcher ext loc fam (poseLocal st.para_pose)) = none) :
    passIter cfg ext loc fam st = .undef := by
  have h' : ¬ (callMatcher ext loc fam (poseLocal st.para_pose)).length < 10 := by omega
  simp only [passIter, h', if_false, hb]

/-! ## Lemmas on the residual blocks -/

/-- The blocks are as many as the correspondences. -/
theorem residualBlocks_length (cfg : Config) (pts : PointICloud) :
    ∀ (fs : List PointPlaneFeature) (bs : List ResidualBlock),
      residualBlocks cfg pts fs = some bs → bs.length = fs.length
  | [], bs, h => by
    simp only [residualBlocks, Option.some.injEq] at h
    subst h; rfl
  | f :: fs, bs, h => by
    simp only [residualBlocks] at h
    split at h
    · cases h
    · split at h
      · cases h
      · rename_i blks hr
        simp only [Option.some.injEq] at h
        subst h
        simp [residualBlocks_length cfg pts fs blks hr]

/-- The i-th block is the block of the i-th correspondence. -/
theorem residualBlocks_get (cfg : Config) (pts : PointICloud) :
    ∀ (fs : List PointPlaneFeature) (bs : List ResidualBlock),
      residualBlocks cfg pts fs = some bs →
      ∀ i : Nat, ∀ f, fs[i]? = some f → ∃ b, bs[i]? = some b ∧ residualOf cfg pts f = some b
  | [], bs, _, i, f, hf => by simp at hf
  | f0 :: fs, bs, h, i, f, hf => by
    simp only [residualBlocks] at h
    split at h
    · cases h
    · rename_i blk h0
      split at h
      · cases h
      · rename_i blks hr
        simp only [Option.some.injEq] at h
        subst h
        cases i with
        | zero =>
          simp only [List.getElem?_cons_zero, Option.some.injEq] at hf
          subst hf
          exact ⟨blk, by simp, h0⟩
        | succ j =>
          simp only [List.getElem?_cons_succ] at hf
          obtain ⟨b, hb, hres⟩ := residualBlocks_get cfg pts fs blks hr j f hf
          exact ⟨b, by simpa using hb, hres⟩

/-- Every block comes from a correspondence of the list. -/
theorem residualBlocks_mem (cfg : Config) (pts : PointICloud) :
    ∀ (fs : List PointPlaneFeature) (bs : List ResidualBlock),
      residualBlocks cfg pts fs = some bs →
      ∀ b ∈ bs, ∃ f ∈ fs, residualOf cfg pts f = some b
  | [], bs, h, b, hb => by
    simp only [residualBlocks, Option.some.injEq] at h
    subst h; simp at hb
  | f0 :: fs, bs, h, b, hb => by
    simp only [residualBlocks] at h
    split at h
    · cases h
    · rename_i blk h0
      split at h
      · cases h
      · rename_i blks hr
        simp only [Option.some.injEq] at h
        subst h
        rcases List.mem_cons.mp hb with hb | hb
        · subst hb
          exact ⟨f0, by simp, h0⟩
        · obtain ⟨f, hf, hres⟩ := residualBlocks_mem cfg pts fs blks hr b hb
          exact ⟨f, by simp [hf], hres⟩

/-- The blocks are defined as soon as every time factor read is. -/
theorem residualBlocks_defined (cfg : Config) (pts : PointICloud) :
    ∀ fs : List PointPlaneFeature,
      (∀ f ∈ fs, ∃ s, timeScale cfg pts f.idx_ = some s) →
      ∃ bs, residualBlocks cfg pts fs = some bs
  | [], _ => ⟨[], rfl⟩
  | f0 :: fs, h => by
    obtain ⟨s, hs⟩ := h f0 (by simp)
    obtain ⟨bs, hbs⟩ := residualBlocks_defined cfg pts fs (fun f hf => h f (by simp [hf]))
    exact ⟨⟨⟨f0.point_, f0.coeffs_, s⟩, loss_function, para_pose_ref⟩ :: bs,
      by simp only [residualBlocks, residualOf, hs, hbs]⟩

/-- Without distortion compensation every time factor is 1, whatever the point. -/
theorem timeScale_off (cfg : Config) (pts : PointICloud) (idx : Nat)
    (h : cfg.DISTORTION = false) : timeScale cfg pts idx = some 1 := by
  simp [timeScale, h]

/-- With distortion compensation the time factor of an in-range point. -/
theorem timeScale_on (cfg : Config) (pts : PointICloud) (idx : Nat) (pt : PointI) (k : ℤ)
    (h : cfg.DISTORTION = true) (hp : pts[idx]? = some pt) (hk : toInt pt.intensity = some k) :
    timeScale cfg pts idx = some ((pt.intensity - (k : ℚ)) / cfg.SCAN_PERIOD) := by
  simp [timeScale, h, hp, hk]

/-! ## Lemmas on the loops -/

/-- Counting over an appended trace. -/
theorem countMatcher_append (fam : Family) (a b : List Event) :
    countMatcher fam (a ++ b) = countMatcher fam a + countMatcher fam b := by
  simp [countMatcher, List.countP_append]

/-- Counting solver invocations over an appended trace. -/
theorem countSolve_append (a b : List Event) :
    countSolve (a ++ b) = countSolve a + countSolve b := by
  simp [countSolve, List.countP_append]

/-- What a loop of `n` remaining iterations appends to the trace: at most `n` matcher calls
of its family, at most `n` solver invocations, no matcher call of the other family, and only
events of the shape an iteration of the family produces. -/
theorem passLoop_trace (cfg : Config) (ext : External) (loc : Locals) (fam : Family) :
    ∀ (n : Nat) (st st1 : TrackState), passLoop cfg ext loc fam n st = .returned st1 →
      ∃ evs, st1.trace = st.trace ++ evs ∧ countMatcher fam evs ≤ n ∧ countSolve evs ≤ n ∧
        (∀ other, other ≠ fam → countMatcher other evs = 0) ∧
        ∀ e ∈ evs, IterEvent cfg loc fam e
  | 0, st, st1, h => by
    simp only [passLoop, Outcome.returned.injEq] at h
    subst h
    exact ⟨[], by simp, by simp [countMatcher], by simp [countSolve],
      fun _ _ => by simp [countMatcher], by simp⟩
  | n + 1, st, st1, h => by
    by_cases hlt : (callMatcher ext loc fam (poseLocal st.para_pose)).length < 10
    · simp only [passLoop, passIter_brk cfg ext loc fam st hlt, Outcome.returned.injEq] at h
      subst h
      refine ⟨[Event.matcher fam (poseLocal st.para_pose)
        (callMatcher ext loc fam (poseLocal st.para_pose))], rfl, ?_, ?_, ?_, ?_⟩
      · simp [countMatcher, Event.isMatcherOf]
      · simp [countSolve, Event.isSolve]
      · intro other ho
        simp [countMatcher, Event.isMatcherOf, Ne.symm ho]
      · intro e he
        simp only [List.mem_singleton] at he
        subst he
        simp [IterEvent]
    · have hge : 10 ≤ (callMatcher ext loc fam (poseLocal st.para_pose)).length := by omega
      cases hb : residualBlocks cfg (curPoints loc fam)
          (callMatcher ext loc fam (poseLocal st.para_pose)) with
      | none =>
        simp only [passLoop, passIter_undef cfg ext loc fam st hge hb] at h
        cases h
      | some blocks =>
        simp only [passLoop, passIter_next cfg ext loc fam st blocks hge hb] at h
        obtain ⟨evs, htr, hm, hs, ho, hall⟩ := passLoop_trace cfg ext loc fam n _ st1 h
        refine ⟨Event.matcher fam (poseLocal st.para_pose)
            (callMatcher ext loc fam (poseLocal st.para_pose)) ::
          Event.solve options (problemOf fam blocks) st.para_pose :: evs, ?_, ?_, ?_, ?_, ?_⟩
        · simp [htr]
        · have := countMatcher_append fam [Event.matcher fam (poseLocal st.para_pose)
            (callMatcher ext loc fam (poseLocal st.para_pose)),
            Event.solve options (problemOf fam blocks) st.para_pose] evs
          simp only [List.cons_append, List.nil_append] at this
          rw [this]
          simp only [countMatcher, List.countP_cons, List.countP_nil, Event.isMatcherOf,
            decide_True] at hm ⊢
          simp
          omega
        · have := countSolve_append [Event.matcher fam (poseLocal st.para_pose)
            (callMatcher ext loc fam (poseLocal st.para_pose)),
            Event.solve options (problemOf fam blocks) st.para_pose] evs
          simp only [List.cons_append, List.nil_append] at this
          rw [this]
          simp only [countSolve, List.countP_cons, List.countP_nil, Event.isSolve] at hs ⊢
          simp
          omega
        · intro other hne
          have := countMatcher_append other [Event.matcher fam (poseLocal st.para_pose)
            (callMatcher ext loc fam (poseLocal st.para_pose)),
            Event.solve options (problemOf fam blocks) st.para_pose] evs
          simp only [List.cons_append, List.nil_append] at this
          rw [this, ho other hne]
          simp [countMatcher, Event.isMatcherOf, Ne.symm hne]
        · intro e he
          rcases List.mem_cons.mp he with he | he
          · subst he; simp [IterEvent]
          · rcases List.mem_cons.mp he with he | he
            · subst he
              exact ⟨rfl, _, blocks, hge, hb, rfl⟩
            · exact hall e he

/-- A loop returns when every time factor it may read is defined. -/
theorem passLoop_defined (cfg : Config) (ext : External) (loc : Locals) (fam : Family)
    (hd : ∀ pose_local, ∀ f ∈ callMatcher ext loc fam pose_local,
      ∃ s, timeScale cfg (curPoints loc fam) f.idx_ = some s) :
    ∀ (n : Nat) (st : TrackState), ∃ st1, passLoop cfg ext loc fam n st = .returned st1
  | 0, st => ⟨st, rfl⟩
  | n + 1, st => by
    by_cases hlt : (callMatcher ext loc fam (poseLocal st.para_pose)).length < 10
    · refine ⟨⟨st.para_pose, st.trace ++ [Event.matcher fam (poseLocal st.para_pose)
        (callMatcher ext loc fam (poseLocal st.para_pose))]⟩, ?_⟩
      rw [passLoop, passIter_brk cfg ext loc fam st hlt]
    · have hge : 10 ≤ (callMatcher ext loc fam (poseLocal st.para_pose)).length := by omega
      obtain ⟨blocks, hb⟩ := residualBlocks_defined cfg (curPoints loc fam) _
        (hd (poseLocal st.para_pose))
      obtain ⟨st1, h1⟩ := passLoop_defined cfg ext loc fam hd n
        ⟨ext.Solve options (problemOf fam blocks) st.para_pose,
          st.trace ++ [Event.matcher fam (poseLocal st.para_pose)
            (callMatcher ext loc fam (poseLocal st.para_pose)),
            Event.solve options (problemOf fam blocks) st.para_pose]⟩
      exact ⟨st1, by simp only [passLoop, passIter_next cfg ext loc fam st blocks hge hb, h1]⟩

/-- The first thing a loop with an iteration left does is call its matcher on the pose read
from `para_pose`; everything it appends afterwards holds no matcher call of the other
family. -/
theorem passLoop_first_event (cfg : Config) (ext : External) (loc : Locals) (fam : Family)
    (n : Nat) (st st1 : TrackState) (h : passLoop cfg ext loc fam (n + 1) st = .returned st1) :
    ∃ rest, st1.trace = st.trace ++ Event.matcher fam (poseLocal st.para_pose)
        (callMatcher ext loc fam (poseLocal st.para_pose)) :: rest ∧
      ∀ other, other ≠ fam → countMatcher other rest = 0 := by
  by_cases hlt : (callMatcher ext loc fam (poseLocal st.para_pose)).length < 10
  · simp only [passLoop, passIter_brk cfg ext loc fam st hlt, Outcome.returned.injEq] at h
    subst h
    exact ⟨[], rfl, fun _ _ => by simp [countMatcher]⟩
  · have hge : 10 ≤ (callMatcher ext loc fam (poseLocal st.para_pose)).length := by omega
    cases hb : residualBlocks cfg (curPoints loc fam)
        (callMatcher ext loc fam (poseLocal st.para_pose)) with
    | none =>
      simp only [passLoop, passIter_undef cfg ext loc fam st hge hb] at h
      cases h
    | some blocks =>
      simp only [passLoop, passIter_next cfg ext loc fam st blocks hge hb] at h
      obtain ⟨evs, htr, -, -, ho, -⟩ := passLoop_trace cfg ext loc fam n _ st1 h
      refine ⟨Event.solve options (problemOf fam blocks) st.para_pose :: evs, ?_, ?_⟩
      · simp [htr]
      · intro other hne
        have := countMatcher_append other
          [Event.solve options (problemOf fam blocks) st.para_pose] evs
        simp only [List.cons_append, List.nil_append] at this
        rw [this, ho other hne]
        simp [countMatcher, Event.isMatcherOf]

/-- The pose read back from the packed initial guess is the initial guess. -/
theorem poseLocal_packPose (pose_ini : Pose) : poseLocal (packPose pose_ini) = pose_ini := rfl

/-! ## C1 -/

/-- C1: in either loop, when the matcher returns fewer than 10 correspondences at the entry
state `st` of an outer iteration, that iteration breaks without a solver invocation, the
loop returns at once whatever number of iterations was left (so no later iteration runs),
and `para_pose` at the end of the loop is its value on entry to that iteration; this holds
for the first iteration of the pass and for the second one (entered from `st0`).  With
exactly 10 correspondences an iteration never breaks: it solves, or reads an undefined
time factor. -/
theorem lowCorrespondence_aborts_pass (cfg : Config) (ext : External) (loc : Locals)
    (fam : Family) (st : TrackState) (n : Nat)
    (h : (callMatcher ext loc fam (poseLocal st.para_pose)).length < 10) :
    passIter cfg ext loc fam st = .brk ⟨st.para_pose, st.trace ++
      [Event.matcher fam (poseLocal st.para_pose)
        (callMatcher ext loc fam (poseLocal st.para_pose))]⟩ ∧
    passLoop cfg ext loc fam (n + 1) st = .returned ⟨st.para_pose, st.trace ++
      [Event.matcher fam (poseLocal st.para_pose)
        (callMatcher ext loc fam (poseLocal st.para_pose))]⟩ ∧
    (∀ st0, passIter cfg ext loc fam st0 = .next st →
      passLoop cfg ext loc fam 2 st0 = .returned ⟨st.para_pose, st.trace ++
        [Event.matcher fam (poseLocal st.para_pose)
          (callMatcher ext loc fam (poseLocal st.para_pose))]⟩) ∧
    (∀ sa : TrackState, (callMatcher ext loc fam (poseLocal sa.para_pose)).length = 10 →
      (∀ sb, passIter cfg ext loc fam sa ≠ .brk sb) ∧
      ((∃ blocks, passIter cfg ext loc fam sa =
          .next ⟨ext.Solve options (problemOf fam blocks) sa.para_pose,
            sa.trace ++ [Event.matcher fam (poseLocal sa.para_pose)
              (callMatcher ext loc fam (poseLocal sa.para_pose)),
              Event.solve options (problemOf fam blocks) sa.para_pose]⟩) ∨
        passIter cfg ext loc fam sa = .undef)) := by
  have hbrk := passIter_brk cfg ext loc fam st h
  refine ⟨hbrk, ?_, ?_, ?_⟩
  · simp only [passLoop, hbrk]
  · intro st0 h0
    simp only [passLoop, h0, hbrk]
  · intro sa hsa
    have hge : 10 ≤ (callMatcher ext loc fam (poseLocal sa.para_pose)).length := by omega
    cases hb : residualBlocks cfg (curPoints loc fam)
        (callMatcher ext loc fam (poseLocal sa.para_pose)) with
    | none =>
      have hu := passIter_undef cfg ext loc fam sa hge hb
      exact ⟨fun sb hsb => (by rw [hu] at hsb; cases hsb), Or.inr hu⟩
    | some blocks =>
      have hn := passIter_next cfg ext loc fam sa blocks hge hb
      exact ⟨fun sb hsb => (by rw [hn] at hsb; cases hsb), Or.inl ⟨blocks, hn⟩⟩

/-- C1, at a concrete input: with a matcher that finds nothing, the surface loop entered
with the identity pose returns that pose after one matcher call and no solver invocation. -/
theorem lowCorrespondence_aborts_pass_witness :
    surfPass cfgOn extNone locDemo ⟨packPose poseIdentity, []⟩ =
      .returned ⟨packPose poseIdentity, [Event.matcher .surf poseIdentity []]⟩ :=
  (lowCorrespondence_aborts_pass cfgOn extNone locDemo .surf ⟨packPose poseIdentity, []⟩ 1
    (by decide)).2.1

/-! ## C2 -/

/-- C2 fails: with an empty previous-frame map (no "corner_points_less_sharp") the lookup
yields the end iterator, which is dereferenced; the call has no defined behaviour and
reports no failure. -/
theorem missingSubset_counterexample :
    cloudFeature.find [] "corner_points_less_sharp" = none ∧
    trackCloud cfgOn extDemo [] curDemo poseIdentity = Outcome.undefined ∧
    ¬ ∃ msg, trackCloud cfgOn extDemo [] curDemo poseIdentity = Outcome.failure msg := by
  refine ⟨rfl, rfl, ?_⟩
  rintro ⟨msg, h⟩
  have h2 : trackCloud cfgOn extDemo [] curDemo poseIdentity = Outcome.undefined := rfl
  rw [h2] at h
  cases h

/-- C2, amended: when one of the four required subsets is absent from its map, the end
iterator returned by the lookup is dereferenced unchecked, so the call has undefined
behaviour: it neither returns a defined pose nor reports a failure to its caller. -/
theorem missingSubset_undefined (cfg : Config) (ext : External)
    (prev_cloud_feature cur_cloud_feature : cloudFeature) (pose_ini : Pose)
    (h : prev_cloud_feature.find "corner_points_less_sharp" = none ∨
      prev_cloud_feature.find "surf_points_less_flat" = none ∨
      cur_cloud_feature.find "corner_points_sharp" = none ∨
      cur_cloud_feature.find "surf_points_flat" = none) :
    bindLocals prev_cloud_feature cur_cloud_feature = none ∧
    trackCloud cfg ext prev_cloud_feature cur_cloud_feature pose_ini = .undefined ∧
    (¬ ∃ msg, trackCloud cfg ext prev_cloud_feature cur_cloud_feature pose_ini =
      .failure msg) ∧
    ¬ ∃ pose, trackCloud cfg ext prev_cloud_feature cur_cloud_feature pose_ini =
      .returned pose := by
  have hb : bindLocals prev_cloud_feature cur_cloud_feature = none := by
    unfold bindLocals
    rcases h with h | h | h | h <;> rw [h] <;> split <;> simp_all
  have hu : trackCloud cfg ext prev_cloud_feature cur_cloud_feature pose_ini = .undefined := by
    simp only [trackCloud, trackCloudRun, hb, Outcome.map, Outcome.bind]
  refine ⟨hb, hu, ?_, ?_⟩
  · rintro ⟨msg, hm⟩
    rw [hu] at hm
    cases hm
  · rintro ⟨pose, hp⟩
    rw [hu] at hp
    cases hp

/-- C2 amended, at a concrete input: the current-frame map lacks "surf_points_flat". -/
theorem missingSubset_undefined_witness :
    trackCloud cfgOn extDemo prevDemo [("corner_points_sharp", tenPoints)] poseIdentity =
      .undefined :=
  (missingSubset_undefined cfgOn extDemo prevDemo [("corner_points_sharp", tenPoints)]
    poseIdentity (Or.inr (Or.inr (Or.inr rfl)))).2.1

/-! ## Lemmas on the whole call -/

/-- The trace of a returned call splits into what the surface loop appended and what the
edge loop appended. -/
theorem trackCloudRun_trace (cfg : Config) (ext : External)
    (prev_cloud_feature cur_cloud_feature : cloudFeature) (pose_ini : Pose) (st : TrackState)
    (h : trackCloudRun cfg ext prev_cloud_feature cur_cloud_feature pose_ini = .returned st) :
    ∃ loc evs1 evs2, bindLocals prev_cloud_feature cur_cloud_feature = some loc ∧
      st.trace = evs1 ++ evs2 ∧
      countMatcher .surf evs1 ≤ 2 ∧ countSolve evs1 ≤ 2 ∧ countMatcher .corner evs1 = 0 ∧
      (∀ e ∈ evs1, IterEvent cfg loc .surf e) ∧
      countMatcher .corner evs2 ≤ 2 ∧ countSolve evs2 ≤ 2 ∧ countMatcher .surf evs2 = 0 ∧
      (∀ e ∈ evs2, IterEvent cfg loc .corner e) := by
  simp only [trackCloudRun] at h
  cases hb : bindLocals prev_cloud_feature cur_cloud_feature with
  | none => simp only [hb] at h; cases h
  | some loc =>
    simp only [hb] at h
    cases h1 : surfPass cfg ext loc ⟨packPose pose_ini, []⟩ with
    | failure m => simp only [h1, Outcome.bind] at h; cases h
    | undefined => simp only [h1, Outcome.bind] at h; cases h
    | returned st1 =>
      simp only [h1, Outcome.bind] at h
      obtain ⟨evs1, ht1, hm1, hs1, ho1, ha1⟩ := passLoop_trace cfg ext loc .surf 2 _ st1 h1
      obtain ⟨evs2, ht2, hm2, hs2, ho2, ha2⟩ := passLoop_trace cfg ext loc .corner 2 st1 st h
      refine ⟨loc, evs1, evs2, rfl, ?_, hm1, hs1, ho1 .corner (by decide), ha1, hm2, hs2,
        ho2 .surf (by decide), ha2⟩
      rw [ht2, ht1]
      simp

/-- A call returns when every time factor it may read is defined. -/
theorem trackCloudRun_defined (cfg : Config) (ext : External)
    (prev_cloud_feature cur_cloud_feature : cloudFeature) (pose_ini : Pose) (loc : Locals)
    (hl : bindLocals prev_cloud_feature cur_cloud_feature = some loc)
    (hd : ∀ fam pose_local, ∀ f ∈ callMatcher ext loc fam pose_local,
      ∃ s, timeScale cfg (curPoints loc fam) f.idx_ = some s) :
    ∃ st, trackCloudRun cfg ext prev_cloud_feature cur_cloud_feature pose_ini = .returned st := by
  obtain ⟨st1, h1⟩ := passLoop_defined cfg ext loc .surf (hd .surf) 2 ⟨packPose pose_ini, []⟩
  obtain ⟨st2, h2⟩ := passLoop_defined cfg ext loc .corner (hd .corner) 2 st1
  refine ⟨st2, ?_⟩
  simp only [trackCloudRun, hl, surfPass, cornerPass, h1, Outcome.bind, h2]

/-! ## Lemmas on the conversion to int -/

/-- On a non-negative value that fits, `int(v)` is the floor of `v`. -/
theorem toInt_of_nonneg (v : ℚ) (h0 : 0 ≤ v) (hr : v < 2 ^ 31) : toInt v = some ⌊v⌋ := by
  have hnum : 0 ≤ v.num := Rat.num_nonneg.mpr h0
  have hden : (0 : ℤ) ≤ (v.den : ℤ) := Int.natCast_nonneg _
  have hfl : v.num.tdiv v.den = ⌊v⌋ := by
    rw [Int.tdiv_eq_ediv hnum hden, Rat.floor_def]
  have h1 : (0 : ℤ) ≤ ⌊v⌋ := Int.floor_nonneg.mpr h0
  have h2 : ⌊v⌋ < (2 : ℤ) ^ 31 := by
    have : ((⌊v⌋ : ℤ) : ℚ) ≤ v := Int.floor_le v
    have h3 : ((⌊v⌋ : ℤ) : ℚ) < ((2 : ℤ) ^ 31 : ℤ) := by
      push_cast
      exact lt_of_le_of_lt this hr
    exact_mod_cast h3
  simp only [toInt, hfl]
  rw [if_pos]
  exact ⟨by omega, h2⟩

/-- Every index a correspondence of the concrete matcher carries is in range, and the
intensity read there fits the conversion. -/
theorem tenFeatures_inRange (f : PointPlaneFeature) (hf : f ∈ tenFeatures) :
    ∃ pt k, tenPoints[f.idx_]? = some pt ∧ toInt pt.intensity = some k := by
  simp only [tenFeatures, List.mem_map, List.mem_range] at hf
  obtain ⟨i, hi, rfl⟩ := hf
  refine ⟨⟨i, 0, 0, i + 1 / 20⟩, ⌊((i : ℚ) + 1 / 20)⌋, ?_, ?_⟩
  · simp only [tenPoints, List.getElem?_map, List.getElem?_range hi, Option.map_some']
  · apply toInt_of_nonneg
    · positivity
    · have : (i : ℚ) < 10 := by exact_mod_cast hi
      norm_num
      linarith

/-! ## Lemmas on the masked update -/

/-- A surface-masked update leaves entries 0 and 1 of `para_pose` as they are. -/
theorem Plus_surf_xy (nrm : Quaterniond → Quaterniond) (x : ParaPose) (delta : Vector6) :
    (Plus (V_update .surf) nrm x delta).p0 = x.p0 ∧
    (Plus (V_update .surf) nrm x delta).p1 = x.p1 := by
  simp [Plus, Matrix6.mulVec, V_update, zeroDiagonal, Matrix6.set, setParameter]

/-- Finitely many surface-masked updates leave entries 0 and 1 as they are. -/
theorem foldl_Plus_surf_xy (nrm : Quaterniond → Quaterniond) :
    ∀ (deltas : List Vector6) (x : ParaPose),
      (deltas.foldl (Plus (V_update .surf) nrm) x).p0 = x.p0 ∧
      (deltas.foldl (Plus (V_update .surf) nrm) x).p1 = x.p1
  | [], x => ⟨rfl, rfl⟩
  | d :: ds, x => by
    obtain ⟨h0, h1⟩ := foldl_Plus_surf_xy nrm ds (Plus (V_update .surf) nrm x d)
    obtain ⟨g0, g1⟩ := Plus_surf_xy nrm x d
    simp only [List.foldl_cons]
    exact ⟨h0.trans g0, h1.trans g1⟩

/-- The surface loop with a masked solver leaves entries 0 and 1 as they are. -/
theorem passLoop_surf_xy (cfg : Config) (ext : External) (loc : Locals)
    (nrm : Quaterniond → Quaterniond) (hm : MaskedSolver nrm ext.Solve) :
    ∀ (n : Nat) (st st1 : TrackState), passLoop cfg ext loc .surf n st = .returned st1 →
      st1.para_pose.p0 = st.para_pose.p0 ∧ st1.para_pose.p1 = st.para_pose.p1
  | 0, st, st1, h => by
    simp only [passLoop, Outcome.returned.injEq] at h
    subst h
    exact ⟨rfl, rfl⟩
  | n + 1, st, st1, h => by
    by_cases hlt : (callMatcher ext loc .surf (poseLocal st.para_pose)).length < 10
    · simp only [passLoop, passIter_brk cfg ext loc .surf st hlt, Outcome.returned.injEq] at h
      subst h
      exact ⟨rfl, rfl⟩
    · have hge : 10 ≤ (callMatcher ext loc .surf (poseLocal st.para_pose)).length := by omega
      cases hb : residualBlocks cfg (curPoints loc .surf)
          (callMatcher ext loc .surf (poseLocal st.para_pose)) with
      | none =>
        simp only [passLoop, passIter_undef cfg ext loc .surf st hge hb] at h
        cases h
      | some blocks =>
        simp only [passLoop, passIter_next cfg ext loc .surf st blocks hge hb] at h
        obtain ⟨h0, h1⟩ := passLoop_surf_xy cfg ext loc nrm hm n _ st1 h
        obtain ⟨deltas, hd⟩ := hm options (problemOf .surf blocks)
          ⟨para_pose_ref, SIZE_POSE, local_parameterization .surf⟩ st.para_pose rfl
        obtain ⟨g0, g1⟩ := foldl_Plus_surf_xy nrm deltas st.para_pose
        simp only [hd] at h0 h1
        exact ⟨h0.trans g0, h1.trans g1⟩

/-! ## The concrete run -/

/-- Without distortion compensation the blocks carry the factor 1. -/
theorem residualBlocks_off (cfg : Config) (pts : PointICloud) (h : cfg.DISTORTION = false) :
    ∀ fs : List PointPlaneFeature, residualBlocks cfg pts fs =
      some (fs.map (fun f => ⟨⟨f.point_, f.coeffs_, 1⟩, loss_function, para_pose_ref⟩))
  | [] => rfl
  | f :: fs => by
    simp only [residualBlocks, residualOf, timeScale_off cfg pts f.idx_ h,
      residualBlocks_off cfg pts h fs, List.map_cons]

/-- The concrete solver is a masked solver. -/
theorem extDemo_masked : MaskedSolver Quaterniond.normalized extDemo.Solve := by
  intro o problem pb x h
  exact ⟨[deltaDemo], by simp [extDemo, h]⟩

/-- The rational square root of 9. -/
theorem sqrt_nine : Rat.sqrt 9 = 3 := by
  rw [show (9 : ℚ) = 3 * 3 by norm_num, Rat.sqrt_eq]
  norm_num

/-- The rational square root of 1. -/
theorem sqrt_one_rat : Rat.sqrt 1 = 1 := by
  rw [show (1 : ℚ) = 1 * 1 by norm_num, Rat.sqrt_eq]
  norm_num

/-- The surface-masked step of the concrete solver from the identity pose. -/
theorem Plus_surf_demo :
    Plus (V_update .surf) Quaterniond.normalized (packPose poseIdentity) deltaDemo =
      paraAfterSurf := by
  simp [Plus, Matrix6.mulVec, V_update, zeroDiagonal, Matrix6.set, setParameter, deltaDemo, quatOf, packPose,
    poseIdentity, Quaterniond.mul, Quaterniond.normalized, Quaterniond.squaredNorm,
    paraAfterSurf]
  norm_num [sqrt_nine]

/-- The edge-masked step of the concrete solver from the state the surface loop left. -/
theorem Plus_corner_demo :
    Plus (V_update .corner) Quaterniond.normalized paraAfterSurf deltaDemo = paraFinal := by
  simp [Plus, Matrix6.mulVec, V_update, zeroDiagonal, Matrix6.set, setParameter, deltaDemo, quatOf,
    Quaterniond.mul, Quaterniond.normalized, Quaterniond.squaredNorm, paraAfterSurf, paraFinal]
  norm_num [sqrt_one_rat]

/-- The first surface iteration of the concrete run. -/
theorem passIter_demo :
    passIter cfgOff extDemo locDemo .surf stStart =
      .next ⟨paraAfterSurf, [Event.matcher .surf poseIdentity tenFeatures,
        Event.solve options (problemOf .surf blocksOff) (packPose poseIdentity)]⟩ := by
  have hb := residualBlocks_off cfgOff tenPoints rfl tenFeatures
  have h1 := passIter_next cfgOff extDemo locDemo .surf stStart blocksOff (by decide) hb
  have hs : extDemo.Solve options (problemOf .surf blocksOff) stStart.para_pose =
      paraAfterSurf := Plus_surf_demo
  rw [hs] at h1
  exact h1

/-- The surface loop of the concrete run. -/
theorem surfPass_demo : surfPass cfgOff extDemo locDemo stStart = .returned stAfterSurf := by
  have hb := residualBlocks_off cfgOff tenPoints rfl tenFeatures
  have h1 := passIter_next cfgOff extDemo locDemo .surf stStart blocksOff (by decide) hb
  have hs : extDemo.Solve options (problemOf .surf blocksOff) stStart.para_pose =
      paraAfterSurf := Plus_surf_demo
  rw [hs] at h1
  have h2 := passIter_brk cfgOff extDemo locDemo .surf
    ⟨paraAfterSurf, stStart.trace ++ [Event.matcher .surf (poseLocal stStart.para_pose)
      (callMatcher extDemo locDemo .surf (poseLocal stStart.para_pose)),
      Event.solve options (problemOf .surf blocksOff) stStart.para_pose]⟩
    (by simp [callMatcher, extDemo, poseLocal, transOf, paraAfterSurf])
  have h3 : callMatcher extDemo locDemo .surf (poseLocal paraAfterSurf) = [] := by
    simp [callMatcher, extDemo, poseLocal, transOf, paraAfterSurf]
  simp only [surfPass, passLoop, h1, h2, h3]
  rfl

/-- The edge loop of the concrete run. -/
theorem cornerPass_demo :
    cornerPass cfgOff extDemo locDemo stAfterSurf = .returned stFinal := by
  have hb := residualBlocks_off cfgOff tenPoints rfl tenFeatures
  have hm : callMatcher extDemo locDemo .corner (poseLocal stAfterSurf.para_pose) =
      tenFeatures := by
    simp [callMatcher, extDemo, poseLocal, transOf, paraAfterSurf, stAfterSurf]
  have h1 := passIter_next cfgOff extDemo locDemo .corner stAfterSurf blocksOff
    (by rw [hm]; decide) (by rw [hm]; exact hb)
  have hs : extDemo.Solve options (problemOf .corner blocksOff) stAfterSurf.para_pose =
      paraFinal := Plus_corner_demo
  rw [hs, hm] at h1
  have h3 : callMatcher extDemo locDemo .corner (poseLocal paraFinal) = [] := by
    simp [callMatcher, extDemo, poseLocal, transOf, paraFinal]
  have h2 := passIter_brk cfgOff extDemo locDemo .corner
    ⟨paraFinal, stAfterSurf.trace ++ [Event.matcher .corner (poseLocal stAfterSurf.para_pose)
      tenFeatures, Event.solve options (problemOf .corner blocksOff) stAfterSurf.para_pose]⟩
    (by rw [h3]; decide)
  rw [h3] at h2
  simp only [cornerPass, passLoop, h1, h2]
  simp [stFinal, stAfterSurf]

/-- The concrete run as a whole. -/
theorem trackCloudRun_demo :
    trackCloudRun cfgOff extDemo prevDemo curDemo poseIdentity = .returned stFinal := by
  have hl : bindLocals prevDemo curDemo = some locDemo := rfl
  have h1 : surfPass cfgOff extDemo locDemo ⟨packPose poseIdentity, []⟩ =
      .returned stAfterSurf := surfPass_demo
  simp only [trackCloudRun, hl, h1, Outcome.bind, cornerPass_demo]

/-! ## C3 -/

/-- C3: once the four subsets are bound, `trackCloud` is the edge loop run on the state the
surface loop returned, itself run on the packed initial guess, and the returned pose is
built from the `para_pose` the edge loop leaves.  Whatever state `st1` the surface loop
returns (after a full run or after an early break), it holds no edge-matcher call, and
the first event the edge loop appends is the call of `matchCornerFromScan` on the pose read
from the `para_pose` of `st1`; no surface-matcher call follows it. -/
theorem edgePass_runs_on_surfPass_result (cfg : Config) (ext : External)
    (prev_cloud_feature cur_cloud_feature : cloudFeature) (pose_ini : Pose) (loc : Locals)
    (hl : bindLocals prev_cloud_feature cur_cloud_feature = some loc) :
    trackCloud cfg ext prev_cloud_feature cur_cloud_feature pose_ini =
      ((surfPass cfg ext loc ⟨packPose pose_ini, []⟩).bind (cornerPass cfg ext loc)).map
        (fun st => ext.mkPose (quatOf st.para_pose) (transOf st.para_pose)) ∧
    ∀ st1, surfPass cfg ext loc ⟨packPose pose_ini, []⟩ = .returned st1 →
      trackCloudRun cfg ext prev_cloud_feature cur_cloud_feature pose_ini =
        cornerPass cfg ext loc st1 ∧
      countMatcher .corner st1.trace = 0 ∧
      ∀ st2, cornerPass cfg ext loc st1 = .returned st2 →
        trackCloud cfg ext prev_cloud_feature cur_cloud_feature pose_ini =
          .returned (ext.mkPose (quatOf st2.para_pose) (transOf st2.para_pose)) ∧
        ∃ rest, st2.trace = st1.trace ++
            Event.matcher .corner ⟨quatOf st1.para_pose, transOf st1.para_pose⟩
              (ext.matchCornerFromScan loc.kdtree_corner_last loc.corner_points_last
                loc.corner_points_sharp ⟨quatOf st1.para_pose, transOf st1.para_pose⟩) :: rest ∧
          countMatcher .surf rest = 0 := by
  refine ⟨by simp only [trackCloud, trackCloudRun, hl], ?_⟩
  intro st1 h1
  refine ⟨by simp only [trackCloudRun, hl, h1, Outcome.bind], ?_, ?_⟩
  · obtain ⟨evs, htr, -, -, ho, -⟩ := passLoop_trace cfg ext loc .surf 2 _ st1 h1
    rw [htr]
    simpa using ho .corner (by decide)
  · intro st2 h2
    refine ⟨by simp only [trackCloud, trackCloudRun, hl, h1, Outcome.bind, Outcome.map, h2], ?_⟩
    obtain ⟨rest, htr, ho⟩ := passLoop_first_event cfg ext loc .corner 1 st1 st2 h2
    exact ⟨rest, htr, ho .surf (by decide)⟩

/-- C3, at a concrete input: the surface loop solves once (z moves from 0 to 1), and the
edge matcher is then called on the pose with z = 1 that the surface loop left. -/
theorem edgePass_runs_on_surfPass_result_witness :
    trackCloudRun cfgOff extDemo prevDemo curDemo poseIdentity =
        cornerPass cfgOff extDemo locDemo stAfterSurf ∧
      countMatcher .corner stAfterSurf.trace = 0 ∧
      trackCloud cfgOff extDemo prevDemo curDemo poseIdentity =
        .returned (extDemo.mkPose (quatOf stFinal.para_pose) (transOf stFinal.para_pose)) ∧
      ∃ rest, stFinal.trace = stAfterSurf.trace ++
          Event.matcher .corner
            ⟨quatOf stAfterSurf.para_pose, transOf stAfterSurf.para_pose⟩
            (extDemo.matchCornerFromScan locDemo.kdtree_corner_last
              locDemo.corner_points_last locDemo.corner_points_sharp
              ⟨quatOf stAfterSurf.para_pose, transOf stAfterSurf.para_pose⟩) :: rest ∧
        countMatcher .surf rest = 0 :=
  have h := (edgePass_runs_on_surfPass_result cfgOff extDemo prevDemo curDemo poseIdentity
    locDemo rfl).2 stAfterSurf surfPass_demo
  ⟨h.1, h.2.1, h.2.2 stFinal cornerPass_demo⟩

/-! ## C7 -/

/-- C7: `para_pose` is initialised as (t.x, t.y, t.z, q.x, q.y, q.z, q.w); the quaternion
read back from entries (6, 3, 4, 5) as (w, x, y, z) and the translation read back from
entries 0 to 2 are those of the initial guess.  When both matchers return fewer than 10
correspondences on the initial guess, each loop breaks in its first iteration, `para_pose`
is still the packed initial guess, and the returned pose is the one the constructor builds
from the quaternion and the translation of the initial guess. -/
theorem abortedPasses_return_initial (cfg : Config) (ext : External)
    (prev_cloud_feature cur_cloud_feature : cloudFeature) (pose_ini : Pose) (loc : Locals)
    (hl : bindLocals prev_cloud_feature cur_cloud_feature = some loc)
    (hs : (ext.matchSurfFromScan loc.kdtree_surf_last loc.surf_points_last
      loc.surf_points_flat pose_ini).length < 10)
    (hc : (ext.matchCornerFromScan loc.kdtree_corner_last loc.corner_points_last
      loc.corner_points_sharp pose_ini).length < 10) :
    packPose pose_ini = ⟨pose_ini.t_.x, pose_ini.t_.y, pose_ini.t_.z,
      pose_ini.q_.x, pose_ini.q_.y, pose_ini.q_.z, pose_ini.q_.w⟩ ∧
    quatOf (packPose pose_ini) = pose_ini.q_ ∧
    transOf (packPose pose_ini) = pose_ini.t_ ∧
    trackCloudRun cfg ext prev_cloud_feature cur_cloud_feature pose_ini =
      .returned ⟨packPose pose_ini,
        [Event.matcher .surf pose_ini (ext.matchSurfFromScan loc.kdtree_surf_last
          loc.surf_points_last loc.surf_points_flat pose_ini),
         Event.matcher .corner pose_ini (ext.matchCornerFromScan loc.kdtree_corner_last
          loc.corner_points_last loc.corner_points_sharp pose_ini)]⟩ ∧
    trackCloud cfg ext prev_cloud_feature cur_cloud_feature pose_ini =
      .returned (ext.mkPose pose_ini.q_ pose_ini.t_) := by
  have h1 : surfPass cfg ext loc ⟨packPose pose_ini, []⟩ = .returned ⟨packPose pose_ini,
      [Event.matcher .surf pose_ini (ext.matchSurfFromScan loc.kdtree_surf_last
          loc.surf_points_last loc.surf_points_flat pose_ini)]⟩ := by
    have hb := passIter_brk cfg ext loc .surf ⟨packPose pose_ini, []⟩ hs
    simp only [surfPass, passLoop, hb]
    rfl
  have h2 : cornerPass cfg ext loc ⟨packPose pose_ini,
      [Event.matcher .surf pose_ini (ext.matchSurfFromScan loc.kdtree_surf_last
          loc.surf_points_last loc.surf_points_flat pose_ini)]⟩ = .returned ⟨packPose pose_ini,
      [Event.matcher .surf pose_ini (ext.matchSurfFromScan loc.kdtree_surf_last
          loc.surf_points_last loc.surf_points_flat pose_ini),
       Event.matcher .corner pose_ini (ext.matchCornerFromScan loc.kdtree_corner_last
          loc.corner_points_last loc.corner_points_sharp pose_ini)]⟩ := by
    have hb := passIter_brk cfg ext loc .corner ⟨packPose pose_ini,
      [Event.matcher .surf pose_ini (ext.matchSurfFromScan loc.kdtree_surf_last
          loc.surf_points_last loc.surf_points_flat pose_ini)]⟩ hc
    simp only [cornerPass, passLoop, hb]
    rfl
  refine ⟨rfl, rfl, rfl, ?_, ?_⟩
  · simp only [trackCloudRun, hl, h1, Outcome.bind, h2]
  · simp only [trackCloud, trackCloudRun, hl, h1, Outcome.bind, h2, Outcome.map]
    rfl

/-- C7, at a concrete input: a pose with a non-trivial quaternion and translation comes back
through the constructor with the same four quaternion entries and the same translation. -/
theorem abortedPasses_return_initial_witness :
    trackCloud cfgOn extNone prevDemo curDemo ⟨⟨4 / 5, 0, 3 / 5, 0⟩, ⟨1, 2, 3⟩⟩ =
      .returned (extNone.mkPose ⟨4 / 5, 0, 3 / 5, 0⟩ ⟨1, 2, 3⟩) :=
  (abortedPasses_return_initial cfgOn extNone prevDemo curDemo ⟨⟨4 / 5, 0, 3 / 5, 0⟩, ⟨1, 2, 3⟩⟩
    locDemo rfl (by decide) (by decide)).2.2.2.2

/-! ## C4 -/

/-- C4: with `DISTORTION` false, whatever `SCAN_PERIOD`, the time factor computed for any
index of any cloud is exactly 1; the call returns whenever the four subsets are present;
and in every call that returns, every residual block of every problem handed to the solver,
in the surface loop and in the edge loop alike, carries the factor 1. -/
theorem distortionOff_scale_one (cfg : Config) (ext : External)
    (prev_cloud_feature cur_cloud_feature : cloudFeature) (pose_ini : Pose)
    (hoff : cfg.DISTORTION = false) :
    (∀ (pts : PointICloud) (idx : Nat), timeScale cfg pts idx = some 1) ∧
    (∀ loc, bindLocals prev_cloud_feature cur_cloud_feature = some loc →
      ∃ st, trackCloudRun cfg ext prev_cloud_feature cur_cloud_feature pose_ini =
        .returned st) ∧
    ∀ st, trackCloudRun cfg ext prev_cloud_feature cur_cloud_feature pose_ini = .returned st →
      ∀ o problem x, Event.solve o problem x ∈ st.trace →
        ∀ b ∈ problem.residual_blocks, b.cost.s_ = 1 := by
  refine ⟨fun pts idx => timeScale_off cfg pts idx hoff, ?_, ?_⟩
  · intro loc hl
    exact trackCloudRun_defined cfg ext prev_cloud_feature cur_cloud_feature pose_ini loc hl
      (fun fam _ f _ => ⟨1, timeScale_off cfg _ f.idx_ hoff⟩)
  intro st hst o problem x he b hb
  obtain ⟨loc, evs1, evs2, -, htr, -, -, -, ha1, -, -, -, ha2⟩ :=
    trackCloudRun_trace cfg ext prev_cloud_feature cur_cloud_feature pose_ini st hst
  have key : ∀ fam, IterEvent cfg loc fam (Event.solve o problem x) → b.cost.s_ = 1 := by
    intro fam hi
    obtain ⟨-, fs, blocks, -, hres, hp⟩ := hi
    subst hp
    obtain ⟨f, -, hf⟩ := residualBlocks_mem cfg _ fs blocks hres b hb
    simp only [residualOf, timeScale_off cfg _ f.idx_ hoff, Option.some.injEq] at hf
    rw [← hf]
  rw [htr] at he
  rcases List.mem_append.mp he with he | he
  · exact key .surf (ha1 _ he)
  · exact key .corner (ha2 _ he)

/-- C4, at a concrete input: the run makes two solver invocations of ten blocks each, all
with the factor 1, although the points carry the intensities i + 1/20. -/
theorem distortionOff_scale_one_witness :
    Event.solve options (problemOf .surf blocksOff) (packPose poseIdentity) ∈ stFinal.trace ∧
    (problemOf .surf blocksOff).residual_blocks.length = 10 ∧
    ∀ b ∈ (problemOf .surf blocksOff).residual_blocks, b.cost.s_ = 1 :=
  ⟨by simp [stFinal, stAfterSurf], rfl,
    (distortionOff_scale_one cfgOff extDemo prevDemo curDemo poseIdentity rfl).2.2 stFinal
      trackCloudRun_demo options (problemOf .surf blocksOff) (packPose poseIdentity)
      (by simp [stFinal, stAfterSurf])⟩

/-! ## C5 -/

/-- C5 fails: a point of intensity 1/2 (scan 0, offset 1/2, which lies in [0,1)) with the
positive scan period 1/10 and distortion compensation on gets the factor 5. -/
theorem timeScale_counterexample :
    (0 : ℚ) ≤ 1 / 2 ∧ (1 / 2 : ℚ) - (⌊(1 / 2 : ℚ)⌋ : ℚ) < 1 ∧ (0 : ℚ) < 1 / 10 ∧
    timeScale ⟨true, 1 / 10⟩ [⟨0, 0, 0, 1 / 2⟩] 0 = some 5 ∧ ¬ ((5 : ℚ) ≤ 1) := by
  have hf : ⌊(1 / 2 : ℚ)⌋ = 0 := by
    rw [Int.floor_eq_iff]; norm_num
  refine ⟨by norm_num, by rw [hf]; norm_num, by norm_num, ?_, by norm_num⟩
  have hk : toInt (1 / 2 : ℚ) = some ⌊(1 / 2 : ℚ)⌋ :=
    toInt_of_nonneg _ (by norm_num) (by norm_num)
  rw [hf] at hk
  rw [timeScale_on ⟨true, 1 / 10⟩ [⟨0, 0, 0, 1 / 2⟩] 0 ⟨0, 0, 0, 1 / 2⟩ 0 rfl rfl hk]
  norm_num

/-- C5, amended: for a point of non-negative intensity below 2^31 and a positive scan period
the factor is defined; it is (intensity - floor intensity) / SCAN_PERIOD when distortion
compensation is on and 1 when it is off; it is never negative; and it is at most 1 exactly
when compensation is off or the fractional part of the intensity is at most SCAN_PERIOD. -/
theorem timeScale_bounds (cfg : Config) (pts : PointICloud) (idx : Nat) (pt : PointI)
    (hp : pts[idx]? = some pt) (h0 : 0 ≤ pt.intensity) (hr : pt.intensity < 2 ^ 31)
    (hT : 0 < cfg.SCAN_PERIOD) :
    ∃ s, timeScale cfg pts idx = some s ∧
      s = (if cfg.DISTORTION then (pt.intensity - (⌊pt.intensity⌋ : ℚ)) / cfg.SCAN_PERIOD
        else 1) ∧
      0 ≤ s ∧
      (s ≤ 1 ↔ (cfg.DISTORTION = true →
        pt.intensity - (⌊pt.intensity⌋ : ℚ) ≤ cfg.SCAN_PERIOD)) := by
  cases hD : cfg.DISTORTION with
  | false =>
    exact ⟨1, timeScale_off cfg pts idx hD, by simp, by norm_num, by simp⟩
  | true =>
    have hk := toInt_of_nonneg pt.intensity h0 hr
    have hfrac : 0 ≤ pt.intensity - (⌊pt.intensity⌋ : ℚ) :=
      sub_nonneg.mpr (Int.floor_le _)
    refine ⟨_, timeScale_on cfg pts idx pt _ hD hp hk, by simp, div_nonneg hfrac hT.le, ?_⟩
    rw [div_le_one hT]
    simp

/-- C5 amended, at a concrete input: intensity 3 + 1/20 with the scan period 1/10. -/
theorem timeScale_bounds_witness :
    ∃ s, timeScale cfgOn [⟨0, 0, 0, 3 + 1 / 20⟩] 0 = some s ∧
      s = (if cfgOn.DISTORTION then
        ((3 + 1 / 20 : ℚ) - (⌊(3 + 1 / 20 : ℚ)⌋ : ℚ)) / cfgOn.SCAN_PERIOD else 1) ∧
      0 ≤ s ∧
      (s ≤ 1 ↔ (cfgOn.DISTORTION = true →
        (3 + 1 / 20 : ℚ) - (⌊(3 + 1 / 20 : ℚ)⌋ : ℚ) ≤ cfgOn.SCAN_PERIOD)) :=
  timeScale_bounds cfgOn [⟨0, 0, 0, 3 + 1 / 20⟩] 0 ⟨0, 0, 0, 3 + 1 / 20⟩ rfl
    (by norm_num) (by norm_num) (by norm_num [cfgOn])

/-! ## C6 -/

/-- C6 fails for the yaw: from the identity pose (yaw 0) the surface loop of the concrete
run, whose solver takes one masked update step, returns the unit quaternion
(1/3, 2/3, 2/3, 0), whose yaw is atan2 (8/9) (1/9), not 0. -/
theorem surfPass_yaw_counterexample :
    MaskedSolver Quaterniond.normalized extDemo.Solve ∧
    surfPass cfgOff extDemo locDemo ⟨packPose poseIdentity, []⟩ = .returned stAfterSurf ∧
    quatOf (packPose poseIdentity) = ⟨1, 0, 0, 0⟩ ∧
    quatOf stAfterSurf.para_pose = ⟨1 / 3, 2 / 3, 2 / 3, 0⟩ ∧
    (quatOf stAfterSurf.para_pose).squaredNorm = 1 ∧
    yawSin (quatOf (packPose poseIdentity)) = 0 ∧
    yawCos (quatOf (packPose poseIdentity)) = 1 ∧
    yawSin (quatOf stAfterSurf.para_pose) = 8 / 9 ∧
    yawCos (quatOf stAfterSurf.para_pose) = 1 / 9 ∧
    ¬ sameYaw (quatOf (packPose poseIdentity)) (quatOf stAfterSurf.para_pose) := by
  have hq0 : quatOf (packPose poseIdentity) = ⟨1, 0, 0, 0⟩ := rfl
  have hq1 : quatOf stAfterSurf.para_pose = ⟨1 / 3, 2 / 3, 2 / 3, 0⟩ := rfl
  refine ⟨extDemo_masked, surfPass_demo, hq0, hq1, ?_, ?_, ?_, ?_, ?_, ?_⟩
  · rw [hq1]; norm_num [Quaterniond.squaredNorm]
  · rw [hq0]; norm_num [yawSin]
  · rw [hq0]; norm_num [yawCos]
  · rw [hq1]; norm_num [yawSin]
  · rw [hq1]; norm_num [yawCos]
  · rw [hq0, hq1]
    intro h
    have h1 := h.1
    norm_num [yawSin, yawCos] at h1

/-- C6, amended: for every solver whose results are obtained through the masked parameter
update, entries 0 and 1 of `para_pose` (the x and y translation components) after the
surface loop equal those before it, and every update increment the surface mask lets through
is zero along the tangent directions 0, 1 and 5. -/
theorem surfPass_keeps_xy (cfg : Config) (ext : External) (loc : Locals)
    (nrm : Quaterniond → Quaterniond) (st st1 : TrackState)
    (hm : MaskedSolver nrm ext.Solve)
    (h : surfPass cfg ext loc st = .returned st1) :
    (transOf st1.para_pose).x = (transOf st.para_pose).x ∧
    (transOf st1.para_pose).y = (transOf st.para_pose).y ∧
    ∀ delta : Vector6, (V_update .surf).mulVec delta 0 = 0 ∧
      (V_update .surf).mulVec delta 1 = 0 ∧ (V_update .surf).mulVec delta 5 = 0 := by
  obtain ⟨h0, h1⟩ := passLoop_surf_xy cfg ext loc nrm hm 2 st st1 h
  refine ⟨h0, h1, fun delta => ?_⟩
  simp [Matrix6.mulVec, V_update, zeroDiagonal, Matrix6.set, setParameter]

/-- C6 amended, at a concrete input: the surface loop of the concrete run moves z from 0 to
1 and leaves x = 0 and y = 0. -/
theorem surfPass_keeps_xy_witness :
    (transOf stAfterSurf.para_pose).x = (transOf stStart.para_pose).x ∧
    (transOf stAfterSurf.para_pose).y = (transOf stStart.para_pose).y ∧
    ∀ delta : Vector6, (V_update .surf).mulVec delta 0 = 0 ∧
      (V_update .surf).mulVec delta 1 = 0 ∧ (V_update .surf).mulVec delta 5 = 0 :=
  surfPass_keeps_xy cfgOff extDemo locDemo Quaterniond.normalized stStart stAfterSurf
    extDemo_masked surfPass_demo

/-! ## C8 -/

/-- C8: the surface loop zeroes the diagonal entries 0, 1, 5 of the update matrix and
leaves 2, 3, 4 at one; the edge loop zeroes 2, 3, 4 and leaves 0, 1, 5 at one.  Each loop
fixes exactly 3 of the 6 components, the two fixed sets are disjoint and cover all six, the
free set of each loop is the fixed set of the other, the matrix is diagonal, the three
assignments of a loop change no other entry of whatever matrix they are applied to, and
this matrix is the one attached to the parameter block of every problem handed to the
solver. -/
theorem updateMask_split :
    fixedSet .surf = {0, 1, 5} ∧ freeSet .surf = {2, 3, 4} ∧
    fixedSet .corner = {2, 3, 4} ∧ freeSet .corner = {0, 1, 5} ∧
    (fixedSet .surf).card = 3 ∧ (fixedSet .corner).card = 3 ∧
    Disjoint (fixedSet .surf) (fixedSet .corner) ∧
    fixedSet .surf ∪ fixedSet .corner = Finset.univ ∧
    freeSet .surf = fixedSet .corner ∧ freeSet .corner = fixedSet .surf ∧
    (∀ (fam : Family) (i j : Fin 6), i ≠ j → V_update fam i j = 0) ∧
    (∀ (fam : Family) (V : Matrix6) (i j : Fin 6),
      zeroDiagonal fam V i j = if i = j ∧ i ∈ assignedSet fam then 0 else V i j) ∧
    (∀ (fam : Family) (blocks : List ResidualBlock),
      (problemOf fam blocks).parameter_blocks =
        [⟨para_pose_ref, SIZE_POSE, ⟨V_update fam⟩⟩]) ∧
    ∀ (cfg : Config) (ext : External) (loc : Locals) (fam : Family) (st st1 : TrackState),
      passIter cfg ext loc fam st = .next st1 →
      ∃ blocks, st1.para_pose = ext.Solve options (problemOf fam blocks) st.para_pose ∧
        st1.trace = st.trace ++ [Event.matcher fam (poseLocal st.para_pose)
          (callMatcher ext loc fam (poseLocal st.para_pose)),
          Event.solve options (problemOf fam blocks) st.para_pose] := by
  have hs : fixedSet .surf = {0, 1, 5} := by
    ext i; fin_cases i <;> simp [fixedSet, V_update, zeroDiagonal, Matrix6.set, setParameter]
  have hc : fixedSet .corner = {2, 3, 4} := by
    ext i; fin_cases i <;> simp [fixedSet, V_update, zeroDiagonal, Matrix6.set, setParameter]
  have fs : freeSet .surf = {2, 3, 4} := by
    ext i; fin_cases i <;> simp [freeSet, V_update, zeroDiagonal, Matrix6.set, setParameter]
  have fc : freeSet .corner = {0, 1, 5} := by
    ext i; fin_cases i <;> simp [freeSet, V_update, zeroDiagonal, Matrix6.set, setParameter]
  refine ⟨hs, fs, hc, fc, ?_, ?_, ?_, ?_, ?_, ?_, ?_, ?_, ?_, ?_⟩
  · rw [hs]; decide
  · rw [hc]; decide
  · rw [hs, hc]; decide
  · rw [hs, hc]; decide
  · rw [fs, hc]
  · rw [fc, hs]
  · intro fam i j hij
    cases fam <;> simp [V_update, zeroDiagonal, Matrix6.set, setParameter, hij]
  · intro fam V i j
    cases fam <;> fin_cases i <;> fin_cases j <;>
      simp [zeroDiagonal, Matrix6.set, assignedSet]
  · intro fam blocks
    rfl
  · intro cfg ext loc fam st st1 h
    by_cases hlt : (callMatcher ext loc fam (poseLocal st.para_pose)).length < 10
    · rw [passIter_brk cfg ext loc fam st hlt] at h
      cases h
    · have hge : 10 ≤ (callMatcher ext loc fam (poseLocal st.para_pose)).length := by omega
      cases hb : residualBlocks cfg (curPoints loc fam)
          (callMatcher ext loc fam (poseLocal st.para_pose)) with
      | none =>
        rw [passIter_undef cfg ext loc fam st hge hb] at h
        cases h
      | some blocks =>
        rw [passIter_next cfg ext loc fam st blocks hge hb] at h
        simp only [IterResult.next.injEq] at h
        subst h
        exact ⟨blocks, rfl, rfl⟩

/-- C8, at a concrete input: the first surface iteration of the concrete run hands the
solver a problem carrying the surface mask. -/
theorem updateMask_split_witness :
    ∃ blocks, paraAfterSurf =
        extDemo.Solve options (problemOf .surf blocks) stStart.para_pose ∧
      [Event.matcher .surf poseIdentity tenFeatures,
        Event.solve options (problemOf .surf blocksOff) (packPose poseIdentity)] =
      stStart.trace ++ [Event.matcher .surf (poseLocal stStart.para_pose)
          (callMatcher extDemo locDemo .surf (poseLocal stStart.para_pose)),
          Event.solve options (problemOf .surf blocks) stStart.para_pose] :=
  updateMask_split.2.2.2.2.2.2.2.2.2.2.2.2.2 cfgOff extDemo locDemo .surf stStart
    ⟨paraAfterSurf, [Event.matcher .surf poseIdentity tenFeatures,
      Event.solve options (problemOf .surf blocksOff) (packPose poseIdentity)]⟩
    passIter_demo

/-! ## C9 -/

/-- C9: for every input, a call that returns has made at most 2 surface-matcher calls, at
most 2 edge-matcher calls and at most 4 solver invocations, each with `max_num_iterations`
6; and the call does return, with a pose, once the four subsets are present and, when
distortion compensation is on, the matcher results index into their cloud with intensities
that fit an int (the matcher and the solver are total functions of the model). -/
theorem trackCloud_bounded_effort (cfg : Config) (ext : External)
    (prev_cloud_feature cur_cloud_feature : cloudFeature) (pose_ini : Pose) :
    (∀ st, trackCloudRun cfg ext prev_cloud_feature cur_cloud_feature pose_ini = .returned st →
      countMatcher .surf st.trace ≤ 2 ∧ countMatcher .corner st.trace ≤ 2 ∧
      countSolve st.trace ≤ 4 ∧
      ∀ o problem x, Event.solve o problem x ∈ st.trace → o.max_num_iterations = 6) ∧
    ∀ loc, bindLocals prev_cloud_feature cur_cloud_feature = some loc →
      (cfg.DISTORTION = true → InRange ext loc) →
      ∃ st, trackCloudRun cfg ext prev_cloud_feature cur_cloud_feature pose_ini =
          .returned st ∧
        trackCloud cfg ext prev_cloud_feature cur_cloud_feature pose_ini =
          .returned (ext.mkPose (quatOf st.para_pose) (transOf st.para_pose)) := by
  constructor
  · intro st hst
    obtain ⟨loc2, evs1, evs2, -, htr, hm1, hs1, ho1, ha1, hm2, hs2, ho2, ha2⟩ :=
      trackCloudRun_trace cfg ext prev_cloud_feature cur_cloud_feature pose_ini st hst
    refine ⟨?_, ?_, ?_, ?_⟩
    · rw [htr, countMatcher_append, ho2]; omega
    · rw [htr, countMatcher_append, ho1]; omega
    · rw [htr, countSolve_append]; omega
    · intro o problem x he
      rw [htr] at he
      rcases List.mem_append.mp he with he | he
      · have := (ha1 _ he).1
        rw [this]; rfl
      · have := (ha2 _ he).1
        rw [this]; rfl
  · intro loc hl hd
    have hdef : ∀ fam pose_local, ∀ f ∈ callMatcher ext loc fam pose_local,
        ∃ s, timeScale cfg (curPoints loc fam) f.idx_ = some s := by
      intro fam pose_local f hf
      cases hD : cfg.DISTORTION with
      | false => exact ⟨1, timeScale_off cfg _ _ hD⟩
      | true =>
        obtain ⟨pt, k, hp, hk⟩ := hd hD fam pose_local f hf
        exact ⟨_, timeScale_on cfg _ _ pt k hD hp hk⟩
    obtain ⟨st, hst⟩ := trackCloudRun_defined cfg ext prev_cloud_feature cur_cloud_feature
      pose_ini loc hl hdef
    exact ⟨st, hst, by simp only [trackCloud, hst, Outcome.map, Outcome.bind]⟩

/-- C9, at concrete inputs: with distortion compensation on the call returns a pose; the
evaluated run without compensation made 2 surface-matcher calls, 2 edge-matcher calls and
2 solver invocations. -/
theorem trackCloud_bounded_effort_witness :
    (∃ st, trackCloudRun cfgOn extDemo prevDemo curDemo poseIdentity = .returned st ∧
      trackCloud cfgOn extDemo prevDemo curDemo poseIdentity =
        .returned (extDemo.mkPose (quatOf st.para_pose) (transOf st.para_pose))) ∧
    (countMatcher .surf stFinal.trace ≤ 2 ∧ countMatcher .corner stFinal.trace ≤ 2 ∧
      countSolve stFinal.trace ≤ 4 ∧
      ∀ o problem x, Event.solve o problem x ∈ stFinal.trace → o.max_num_iterations = 6) :=
  ⟨(trackCloud_bounded_effort cfgOn extDemo prevDemo curDemo poseIdentity).2 locDemo rfl
    (fun _ fam pose_local f hf => by
      have hmem : f ∈ tenFeatures := by
        cases fam <;> simp only [callMatcher, extDemo] at hf <;> split at hf <;> simp_all
      cases fam <;> exact tenFeatures_inRange f hmem),
   (trackCloud_bounded_effort cfgOff extDemo prevDemo curDemo poseIdentity).1 stFinal
    trackCloudRun_demo⟩

/-! ## C10 -/

/-- C10: in an outer iteration of either loop entered in state `st`, when the matcher
returns n >= 10 correspondences (whose indices, if distortion compensation is on, lie in
the current-frame cloud of the family with intensities that fit an int), the solver is
invoked on a problem with exactly n residual blocks; the i-th block holds the point and the
coefficients of the i-th correspondence and the time factor computed at its index `idx_` in
`surf_points_flat` (surface loop) or `corner_points_sharp` (edge loop): 1 without
compensation, (intensity - int(intensity)) / SCAN_PERIOD with it; and every block, like
the one parameter block of the problem, refers to the array `para_pose`. -/
theorem residualBlock_per_correspondence (cfg : Config) (ext : External) (loc : Locals)
    (fam : Family) (st : TrackState)
    (h10 : 10 ≤ (callMatcher ext loc fam (poseLocal st.para_pose)).length)
    (hd : cfg.DISTORTION = true → ∀ f ∈ callMatcher ext loc fam (poseLocal st.para_pose),
      ∃ pt k, (curPoints loc fam)[f.idx_]? = some pt ∧ toInt pt.intensity = some k) :
    curPoints loc .surf = loc.surf_points_flat ∧
    curPoints loc .corner = loc.corner_points_sharp ∧
    ∃ blocks,
      passIter cfg ext loc fam st =
        .next ⟨ext.Solve options (problemOf fam blocks) st.para_pose,
          st.trace ++ [Event.matcher fam (poseLocal st.para_pose)
            (callMatcher ext loc fam (poseLocal st.para_pose)),
            Event.solve options (problemOf fam blocks) st.para_pose]⟩ ∧
      (problemOf fam blocks).residual_blocks.length =
        (callMatcher ext loc fam (poseLocal st.para_pose)).length ∧
      (∀ (i : Nat) (f : PointPlaneFeature),
        (callMatcher ext loc fam (poseLocal st.para_pose))[i]? = some f →
        ∃ s, (problemOf fam blocks).residual_blocks[i]? =
            some (ResidualBlock.mk ⟨f.point_, f.coeffs_, s⟩ loss_function para_pose_ref) ∧
          (cfg.DISTORTION = false → s = 1) ∧
          (cfg.DISTORTION = true → ∃ pt k, (curPoints loc fam)[f.idx_]? = some pt ∧
            toInt pt.intensity = some k ∧
            s = (pt.intensity - (k : ℚ)) / cfg.SCAN_PERIOD)) ∧
      (∀ b ∈ (problemOf fam blocks).residual_blocks, b.parameter = para_pose_ref) ∧
      (problemOf fam blocks).parameter_blocks.map (fun pb => pb.values) = [para_pose_ref] := by
  have hdef : ∀ f ∈ callMatcher ext loc fam (poseLocal st.para_pose),
      ∃ s, timeScale cfg (curPoints loc fam) f.idx_ = some s := by
    intro f hf
    cases hD : cfg.DISTORTION with
    | false => exact ⟨1, timeScale_off cfg _ _ hD⟩
    | true =>
      obtain ⟨pt, k, hp, hk⟩ := hd hD f hf
      exact ⟨_, timeScale_on cfg _ _ pt k hD hp hk⟩
  obtain ⟨blocks, hb⟩ := residualBlocks_defined cfg (curPoints loc fam) _ hdef
  refine ⟨rfl, rfl, blocks, passIter_next cfg ext loc fam st blocks h10 hb,
    residualBlocks_length cfg _ _ blocks hb, ?_, ?_, rfl⟩
  · intro i f hf
    obtain ⟨b, hbi, hres⟩ := residualBlocks_get cfg _ _ blocks hb i f hf
    simp only [residualOf] at hres
    cases hts : timeScale cfg (curPoints loc fam) f.idx_ with
    | none => simp only [hts] at hres; cases hres
    | some s =>
      simp only [hts, Option.some.injEq] at hres
      refine ⟨s, ?_, ?_, ?_⟩
      · simp only [problemOf]; rw [hbi, hres]
      · intro hD
        have := timeScale_off cfg (curPoints loc fam) f.idx_ hD
        rw [hts] at this
        exact Option.some.inj this
      · intro hD
        obtain ⟨pt, k, hp, hk⟩ := hd hD f (List.getElem?_mem hf)
        refine ⟨pt, k, hp, hk, ?_⟩
        have := timeScale_on cfg (curPoints loc fam) f.idx_ pt k hD hp hk
        rw [hts] at this
        exact Option.some.inj this
  · intro b hbm
    obtain ⟨f, -, hres⟩ := residualBlocks_mem cfg _ _ blocks hb b hbm
    simp only [residualOf] at hres
    split at hres
    · cases hres
    · simp only [Option.some.injEq] at hres
      rw [← hres]

/-- C10, at a concrete input with distortion compensation on: the first surface iteration
of the concrete run, with ten correspondences over ten points. -/
theorem residualBlock_per_correspondence_witness :
    ∃ blocks,
      passIter cfgOn extDemo locDemo .surf stStart =
        .next ⟨extDemo.Solve options (problemOf .surf blocks) stStart.para_pose,
          stStart.trace ++ [Event.matcher .surf (poseLocal stStart.para_pose)
            (callMatcher extDemo locDemo .surf (poseLocal stStart.para_pose)),
            Event.solve options (problemOf .surf blocks) stStart.para_pose]⟩ ∧
      (problemOf .surf blocks).residual_blocks.length =
        (callMatcher extDemo locDemo .surf (poseLocal stStart.para_pose)).length ∧
      (∀ (i : Nat) (f : PointPlaneFeature),
        (callMatcher extDemo locDemo .surf (poseLocal stStart.para_pose))[i]? = some f →
        ∃ s, (problemOf .surf blocks).residual_blocks[i]? =
            some (ResidualBlock.mk ⟨f.point_, f.coeffs_, s⟩ loss_function para_pose_ref) ∧
          (cfgOn.DISTORTION = false → s = 1) ∧
          (cfgOn.DISTORTION = true → ∃ pt k, (curPoints locDemo .surf)[f.idx_]? = some pt ∧
            toInt pt.intensity = some k ∧
            s = (pt.intensity - (k : ℚ)) / cfgOn.SCAN_PERIOD)) ∧
      (∀ b ∈ (problemOf .surf blocks).residual_blocks, b.parameter = para_pose_ref) ∧
      (problemOf .surf blocks).parameter_blocks.map (fun pb => pb.values) =
        [para_pose_ref] :=
  (residualBlock_per_correspondence cfgOn extDemo locDemo .surf stStart (by decide)
    (fun _ f hf => tenFeatures_inRange f hf)).2.2

end LidarTracker
